import Mathlib

/-!
Verification of the GCRA rate-limiter library `aiofreqlimit`.

Times and durations are modelled as exact rationals (`ℚ`), Python ints as
`ℤ`.  Source files embedded here:

* `src/aiofreqlimit/params.py`  — `FreqLimitParams` with derived
  `interval` and `tau`, plus `__post_init__` validation;
* `src/aiofreqlimit/gcra.py`    — `gcra_step`;
* `src/aiofreqlimit/backends/memory.py` — `InMemoryBackend` state,
  `reserve`, `_cleanup_expired`, constructor validation;
* `src/aiofreqlimit/backends/redis.py`  — the Lua script `GCRA_LUA`
  (GCRA step plus TTL computation);
* `src/aiofreqlimit/limiter.py` — the key substitution in
  `FreqLimit.resource`.
-/

namespace Aiofreqlimit

/-- `FreqLimitParams` dataclass from `params.py`: `limit : int`,
`period : float`, `burst : int = 1`. -/
structure FreqLimitParams where
  limit : ℤ
  period : ℚ
  burst : ℤ := 1
  deriving Repr, DecidableEq

namespace FreqLimitParams

/-- `interval` property: `period / limit`. -/
def interval (p : FreqLimitParams) : ℚ := p.period / (p.limit : ℚ)

/-- `tau` property: `interval * (burst - 1)`. -/
def tau (p : FreqLimitParams) : ℚ := p.interval * ((p.burst : ℚ) - 1)

/-- The values `__post_init__` accepts: all three inputs positive. -/
def Valid (p : FreqLimitParams) : Prop :=
  0 < p.limit ∧ 0 < p.period ∧ 0 < p.burst

instance : DecidablePred Valid := fun p => by
  unfold Valid; infer_instance

end FreqLimitParams

/-- `gcra_step` from `gcra.py`.  Returns `(new_tat, delay)`.  The Python
body initialises `delay = 0.0`, `effective_now = now` and then mutates
both under a single `if effective_now < allowed_time`; here that one
conditional assignment is rendered as two `if`s with the same guard. -/
def gcra_step (now : ℚ) (tat? : Option ℚ) (params : FreqLimitParams) :
    ℚ × ℚ :=
  let tat := tat?.getD now
  let interval := params.interval
  let tau := params.tau
  let allowed_time := tat - tau
  let delay := if now < allowed_time then allowed_time - now else 0
  let effective_now := if now < allowed_time then allowed_time else now
  let new_tat :=
    if effective_now ≥ tat then effective_now + interval else tat + interval
  (new_tat, delay)

/-- The five-step algorithm exactly as the spec words it ("step 1: if
`tat` is absent, set `tat := now`; step 2: `allowed = tat - tau`;
step 3: if `now < allowed` then `delay := allowed - now`,
`effective_now := allowed` else `delay := 0`, `effective_now := now`;
step 4: if `effective_now ≥ tat` then `new_tat := effective_now +
interval` else `new_tat := tat + interval`; step 5: return
`(new_tat, delay)`"). -/
def gcra_step_spec (now : ℚ) (tat? : Option ℚ) (params : FreqLimitParams) :
    ℚ × ℚ :=
  let tat := match tat? with | none => now | some t => t
  let allowed := tat - params.tau
  let delay := if now < allowed then allowed - now else 0
  let effective_now := if now < allowed then allowed else now
  let new_tat :=
    if effective_now ≥ tat then effective_now + params.interval
    else tat + params.interval
  (new_tat, delay)

namespace FreqLimitParams

theorem interval_pos {p : FreqLimitParams} (h : p.Valid) : 0 < p.interval := by
  obtain ⟨hl, hp, -⟩ := h
  have : (0 : ℚ) < (p.limit : ℚ) := by exact_mod_cast hl
  exact div_pos hp this

theorem tau_nonneg {p : FreqLimitParams} (h : p.Valid) : 0 ≤ p.tau := by
  have h1 : (0 : ℚ) ≤ (p.burst : ℚ) - 1 := by
    have : (1 : ℚ) ≤ (p.burst : ℚ) := by exact_mod_cast h.2.2
    linarith
  exact mul_nonneg (le_of_lt (interval_pos h)) h1

end FreqLimitParams

/-- Closed form of the returned delay: `max 0 (tat - tau - now)` with
`tat` defaulting to `now` when absent. -/
theorem gcra_step_snd (now : ℚ) (tat? : Option ℚ) (p : FreqLimitParams) :
    (gcra_step now tat? p).2 = max 0 (tat?.getD now - p.tau - now) := by
  simp only [gcra_step]
  split_ifs with h
  · rw [max_eq_right] <;> linarith
  · rw [max_eq_left] <;> linarith

/-- Closed form of the returned TAT when `tau ≥ 0`:
`max now tat + interval` with `tat` defaulting to `now` when absent. -/
theorem gcra_step_fst (now : ℚ) (tat? : Option ℚ) (p : FreqLimitParams)
    (h : 0 ≤ p.tau) :
    (gcra_step now tat? p).1 = max now (tat?.getD now) + p.interval := by
  simp only [gcra_step, ge_iff_le]
  set t := tat?.getD now with ht
  split_ifs with h0 h1 h2
  · have htau : p.tau = 0 := le_antisymm (by linarith) h
    rw [max_eq_right (by linarith : now ≤ t)]
    linarith
  · rw [max_eq_right (by linarith : now ≤ t)]
  · rw [max_eq_left h2]
  · rw [max_eq_right (by linarith : now ≤ t)]

/-- C1: for every `now`, prior `tat` (present or absent) and valid
params, `gcra_step` returns exactly the pair of the spec's five-step
algorithm, and the returned delay is nonnegative. -/
theorem gcra_step_matches_spec (now : ℚ) (tat? : Option ℚ)
    (p : FreqLimitParams) (h : p.Valid) :
    gcra_step now tat? p = gcra_step_spec now tat? p ∧
      0 ≤ (gcra_step now tat? p).2 := by
  constructor
  · cases tat? <;> rfl
  · rw [gcra_step_snd]; exact le_max_left _ _

/-- Concrete instantiation of `gcra_step_matches_spec`. -/
theorem gcra_step_matches_spec_witness :
    (FreqLimitParams.mk 2 1 1).Valid ∧
      (gcra_step 1 (some (3/2)) (FreqLimitParams.mk 2 1 1) =
          gcra_step_spec 1 (some (3/2)) (FreqLimitParams.mk 2 1 1) ∧
        0 ≤ (gcra_step 1 (some (3/2)) (FreqLimitParams.mk 2 1 1)).2) :=
  ⟨by decide, gcra_step_matches_spec 1 (some (3/2))
    (FreqLimitParams.mk 2 1 1) (by decide)⟩

/-- C2: after any step, `new_tat ≥ now + delay`, and
`new_tat - (now + delay) ≤ interval + tau + ε` with `ε = 10⁻⁹`
(the floating-point slack of the spec; exact arithmetic needs none). -/
theorem gcra_step_invariant (now : ℚ) (tat? : Option ℚ)
    (p : FreqLimitParams) (h : p.Valid) :
    now + (gcra_step now tat? p).2 ≤ (gcra_step now tat? p).1 ∧
      (gcra_step now tat? p).1 - (now + (gcra_step now tat? p).2) ≤
        p.interval + p.tau + 1 / 1000000000 := by
  have htau := FreqLimitParams.tau_nonneg h
  have hint := FreqLimitParams.interval_pos h
  rw [gcra_step_snd, gcra_step_fst now tat? p htau]
  set t := tat?.getD now
  rcases le_total (t - p.tau - now) 0 with h1 | h1
  · rw [max_eq_left h1]
    rcases le_total now t with h2 | h2
    · rw [max_eq_right h2]
      constructor <;> linarith
    · rw [max_eq_left h2]
      constructor <;> linarith
  · rw [max_eq_right h1, max_eq_right (by linarith : now ≤ t)]
    constructor <;> linarith

/-- Concrete instantiation of `gcra_step_invariant`. -/
theorem gcra_step_invariant_witness :
    (FreqLimitParams.mk 2 1 1).Valid ∧
      (1 + (gcra_step 1 (some 5) (FreqLimitParams.mk 2 1 1)).2 ≤
          (gcra_step 1 (some 5) (FreqLimitParams.mk 2 1 1)).1 ∧
        (gcra_step 1 (some 5) (FreqLimitParams.mk 2 1 1)).1 -
            (1 + (gcra_step 1 (some 5) (FreqLimitParams.mk 2 1 1)).2) ≤
          (FreqLimitParams.mk 2 1 1).interval + (FreqLimitParams.mk 2 1 1).tau +
            1 / 1000000000) :=
  ⟨by decide, gcra_step_invariant 1 (some 5) (FreqLimitParams.mk 2 1 1) (by decide)⟩

/-- C7: with valid params, `new_tat` is monotone (non-decreasing) in
`now` and in `tat`, while `delay` is non-increasing in `now` and
non-decreasing in `tat`. -/
theorem gcra_step_monotone (p : FreqLimitParams) (h : p.Valid)
    (now now' t t' : ℚ) (hn : now ≤ now') (ht : t ≤ t') :
    (gcra_step now (some t) p).1 ≤ (gcra_step now' (some t) p).1 ∧
      (gcra_step now (some t) p).1 ≤ (gcra_step now (some t') p).1 ∧
      (gcra_step now' (some t) p).2 ≤ (gcra_step now (some t) p).2 ∧
      (gcra_step now (some t) p).2 ≤ (gcra_step now (some t') p).2 := by
  have htau := FreqLimitParams.tau_nonneg h
  simp only [gcra_step_fst _ _ _ htau, gcra_step_snd, Option.getD_some]
  refine ⟨?_, ?_, ?_, ?_⟩
  · exact add_le_add_right (max_le_max hn le_rfl) _
  · exact add_le_add_right (max_le_max le_rfl ht) _
  · exact max_le_max le_rfl (by linarith)
  · exact max_le_max le_rfl (by linarith)

/-- Concrete instantiation of `gcra_step_monotone`. -/
theorem gcra_step_monotone_witness :
    ((FreqLimitParams.mk 2 1 1).Valid ∧ (0 : ℚ) ≤ 1 ∧ (2 : ℚ) ≤ 3) ∧
      ((gcra_step 0 (some 2) (FreqLimitParams.mk 2 1 1)).1 ≤
          (gcra_step 1 (some 2) (FreqLimitParams.mk 2 1 1)).1 ∧
        (gcra_step 0 (some 2) (FreqLimitParams.mk 2 1 1)).1 ≤
          (gcra_step 0 (some 3) (FreqLimitParams.mk 2 1 1)).1 ∧
        (gcra_step 1 (some 2) (FreqLimitParams.mk 2 1 1)).2 ≤
          (gcra_step 0 (some 2) (FreqLimitParams.mk 2 1 1)).2 ∧
        (gcra_step 0 (some 2) (FreqLimitParams.mk 2 1 1)).2 ≤
          (gcra_step 0 (some 3) (FreqLimitParams.mk 2 1 1)).2) :=
  ⟨⟨by decide, by decide, by decide⟩,
    gcra_step_monotone (FreqLimitParams.mk 2 1 1) (by decide) 0 1 2 3
      (by decide) (by decide)⟩

/-- Threaded TAT sequence: each step's input TAT is the previous step's
`new_tat` (the way `InMemoryBackend.reserve` threads `self._tat[key]`
through `gcra_step` for one key); records the admission time
`now + delay` of each step. -/
def gcra_admissions (p : FreqLimitParams) :
    Option ℚ → List ℚ → List ℚ
  | _, [] => []
  | tat?, now :: rest =>
    let s := gcra_step now tat? p
    (now + s.2) :: gcra_admissions p (some s.1) rest

/-- The admission time of a step is at least `tat - tau`, and the new
TAT leads the admission time by at least `interval`. -/
theorem gcra_step_admission_bounds (now t : ℚ) (p : FreqLimitParams)
    (h : 0 ≤ p.tau) :
    t - p.tau ≤ now + (gcra_step now (some t) p).2 ∧
      (now + (gcra_step now (some t) p).2) + p.interval ≤
        (gcra_step now (some t) p).1 := by
  rw [gcra_step_snd, gcra_step_fst now (some t) p h]
  simp only [Option.getD_some]
  constructor
  · rcases le_total (t - p.tau - now) 0 with h1 | h1
    · rw [max_eq_left h1]; linarith
    · rw [max_eq_right h1]; linarith
  · rcases le_total (t - p.tau - now) 0 with h1 | h1
    · rw [max_eq_left h1]
      have := le_max_left now t
      linarith
    · rw [max_eq_right h1, max_eq_right (by linarith : now ≤ t)]
      linarith

theorem gcra_admissions_chain_aux (p : FreqLimitParams) (h : 0 ≤ p.tau) :
    ∀ (nows : List ℚ) (tat? : Option ℚ),
      (gcra_admissions p tat? nows).Chain'
        (fun a b => p.interval - p.tau ≤ b - a)
  | [], _ => List.chain'_nil
  | [_], _ => List.chain'_singleton _
  | n1 :: n2 :: rest, tat? => by
    have ih := gcra_admissions_chain_aux p h (n2 :: rest)
      (some (gcra_step n1 tat? p).1)
    simp only [gcra_admissions] at ih ⊢
    refine List.chain'_cons.2 ⟨?_, ih⟩
    have h1 := (gcra_step_admission_bounds n2 (gcra_step n1 tat? p).1 p h).1
    have h2 : (n1 + (gcra_step n1 tat? p).2) + p.interval ≤
        (gcra_step n1 tat? p).1 := by
      cases tat? with
      | none => exact (gcra_step_admission_bounds n1 n1 p h).2
      | some t => exact (gcra_step_admission_bounds n1 t p h).2
    linarith

/-- C3: for a TAT-threaded sequence of `gcra_step`s on one key with
non-decreasing arrival times and fixed valid params, consecutive
admission times `a_i = now_i + delay_i` satisfy
`a_{i+1} - a_i ≥ interval - tau` (so in particular the pacing bound
holds after any initial burst; here it holds for every adjacent pair). -/
theorem gcra_admissions_pacing (p : FreqLimitParams) (h : p.Valid)
    (nows : List ℚ) (hmono : nows.Chain' (fun a b => a ≤ b)) :
    (gcra_admissions p none nows).Chain'
      (fun a b => p.interval - p.tau ≤ b - a) :=
  gcra_admissions_chain_aux p (FreqLimitParams.tau_nonneg h) nows none

/-- Concrete instantiation of `gcra_admissions_pacing`. -/
theorem gcra_admissions_pacing_witness :
    ((FreqLimitParams.mk 2 1 1).Valid ∧
        List.Chain' (fun a b => a ≤ b) [(0 : ℚ), 0, 1]) ∧
      (gcra_admissions (FreqLimitParams.mk 2 1 1) none [(0 : ℚ), 0, 1]).Chain'
        (fun a b =>
          (FreqLimitParams.mk 2 1 1).interval -
            (FreqLimitParams.mk 2 1 1).tau ≤ b - a) :=
  ⟨⟨by decide, by norm_num [List.chain'_cons, List.chain'_singleton]⟩,
    gcra_admissions_pacing (FreqLimitParams.mk 2 1 1) (by decide)
      [(0 : ℚ), 0, 1] (by norm_num [List.chain'_cons, List.chain'_singleton])⟩

/-- Per-key state of `InMemoryBackend`: the `_tat`, `_locks` and
`_last_seen` dicts.  A lock is modelled as `Option Bool`: `none` means
no lock object for the key, `some b` a lock whose `locked()` is `b`. -/
structure InMemoryState (K : Type) where
  tat : K → Option ℚ
  locks : K → Option Bool
  last_seen : K → Option ℚ

/-- The freshly constructed backend: all three dicts empty. -/
def InMemoryState.empty (K : Type) : InMemoryState K :=
  ⟨fun _ => none, fun _ => none, fun _ => none⟩

/-- `InMemoryBackend._cleanup_expired`: with `ttl = none` it returns at
once; otherwise, for each key in `_tat`, the key is skipped when its
`last_seen` is absent or `last_seen > now - ttl`, and skipped when its
lock object exists and is held; otherwise the key is popped from all
three dicts. -/
def cleanup_expired {K : Type} (ttl? : Option ℚ) (now : ℚ)
    (s : InMemoryState K) : InMemoryState K :=
  match ttl? with
  | none => s
  | some ttl =>
    let expiry_threshold := now - ttl
    let evict : K → Bool := fun k =>
      (s.tat k).isSome &&
        (match s.last_seen k with
          | none => false
          | some ls => decide (ls ≤ expiry_threshold)) &&
        (match s.locks k with
          | some held => !held
          | none => true)
    ⟨fun k => if evict k then none else s.tat k,
      fun k => if evict k then none else s.locks k,
      fun k => if evict k then none else s.last_seen k⟩

/-- `InMemoryBackend.reserve`, serial semantics: run the cleanup pass
when `idle_ttl` is set (`cleanup_expired` with `ttl? = none` is the
identity, as in the source), create the key's lock if absent, and under
the lock run `gcra_step` on the stored TAT, store `new_tat` and
`last_seen := now`, returning the delay.  Once the critical section
ends the key's lock exists and is released (`some false`). -/
def reserve {K : Type} [DecidableEq K] (idle_ttl : Option ℚ)
    (p : FreqLimitParams) (s : InMemoryState K) (k : K) (now : ℚ) :
    InMemoryState K × ℚ :=
  let s1 := cleanup_expired idle_ttl now s
  let r := gcra_step now (s1.tat k) p
  (⟨fun j => if j = k then some r.1 else s1.tat j,
      fun j => if j = k then some false else s1.locks j,
      fun j => if j = k then some now else s1.last_seen j⟩,
    r.2)

/-- A serial sequence of `reserve` calls on one key; returns the final
state and the list of delays observed. -/
def reserveSeq {K : Type} [DecidableEq K] (idle_ttl : Option ℚ)
    (p : FreqLimitParams) (s : InMemoryState K) (k : K) :
    List ℚ → InMemoryState K × List ℚ
  | [] => (s, [])
  | now :: rest =>
    let r := reserve idle_ttl p s k now
    let rr := reserveSeq idle_ttl p r.1 k rest
    (rr.1, r.2 :: rr.2)

/-- A one-key state: key `0` holds TAT `0`, `last_seen = 0`, and no
lock object. -/
def exampleState : InMemoryState ℕ :=
  ⟨fun k => if k = 0 then some 0 else none,
    fun _ => none,
    fun k => if k = 0 then some 0 else none⟩

/-- C4 counterexample: with `idle_ttl = 1`, at `now = 1` key `0` has
`now - last_seen = 1`, which is not strictly greater than `idle_ttl`,
yet the cleanup pass evicts it — the code's threshold is `≥`, not the
claimed strict `>`. -/
theorem cleanup_strict_threshold_counterexample :
    (cleanup_expired (some 1) 1 exampleState).tat 0 = none ∧
      ¬((1 : ℚ) - 0 > 1) := by
  constructor
  · simp only [cleanup_expired, exampleState]
    norm_num
  · norm_num

/-- C4 (amended): with `idle_ttl` set, the cleanup pass evicts a
tracked key (one with a TAT and a `last_seen` entry) exactly when
`now - last_seen ≥ idle_ttl` (not strict) and its mutex is not
currently held; eviction removes the key from all three mappings, and
a key whose mutex is held is never evicted. -/
theorem cleanup_evicts_iff {K : Type} (ttl now : ℚ) (s : InMemoryState K)
    (k : K) (t ls : ℚ) (htat : s.tat k = some t)
    (hls : s.last_seen k = some ls) :
    ((cleanup_expired (some ttl) now s).tat k = none ↔
        (ttl ≤ now - ls ∧ s.locks k ≠ some true)) ∧
      ((cleanup_expired (some ttl) now s).tat k = none →
        (cleanup_expired (some ttl) now s).locks k = none ∧
          (cleanup_expired (some ttl) now s).last_seen k = none) ∧
      (s.locks k = some true →
        (cleanup_expired (some ttl) now s).tat k = s.tat k) := by
  rcases hlk : s.locks k with - | held
  · by_cases hle : ls ≤ now - ttl
    · simp [cleanup_expired, htat, hls, hlk, hle]
      linarith
    · simp [cleanup_expired, htat, hls, hlk, hle]
      linarith
  · cases held
    · by_cases hle : ls ≤ now - ttl
      · simp [cleanup_expired, htat, hls, hlk, hle]
        linarith
      · simp [cleanup_expired, htat, hls, hlk, hle]
        linarith
    · simp [cleanup_expired, htat, hls, hlk]

/-- Concrete instantiation of `cleanup_evicts_iff`. -/
theorem cleanup_evicts_iff_witness :
    (exampleState.tat 0 = some 0 ∧ exampleState.last_seen 0 = some 0) ∧
      (((cleanup_expired (some 1) 2 exampleState).tat 0 = none ↔
          ((1 : ℚ) ≤ 2 - 0 ∧ exampleState.locks 0 ≠ some true)) ∧
        ((cleanup_expired (some 1) 2 exampleState).tat 0 = none →
          (cleanup_expired (some 1) 2 exampleState).locks 0 = none ∧
            (cleanup_expired (some 1) 2 exampleState).last_seen 0 = none) ∧
        (exampleState.locks 0 = some true →
          (cleanup_expired (some 1) 2 exampleState).tat 0 =
            exampleState.tat 0)) :=
  ⟨⟨rfl, rfl⟩, cleanup_evicts_iff 1 2 exampleState 0 0 0 rfl rfl⟩

theorem reserve_frame {K : Type} [DecidableEq K] (p : FreqLimitParams)
    (s : InMemoryState K) (k j : K) (now : ℚ) (hne : j ≠ k) :
    (reserve none p s k now).1.tat j = s.tat j ∧
      (reserve none p s k now).1.locks j = s.locks j ∧
      (reserve none p s k now).1.last_seen j = s.last_seen j := by
  simp [reserve, cleanup_expired, hne]

theorem reserveSeq_frame {K : Type} [DecidableEq K] (p : FreqLimitParams)
    (k j : K) (hne : j ≠ k) :
    ∀ (nows : List ℚ) (s : InMemoryState K),
      (reserveSeq none p s k nows).1.tat j = s.tat j ∧
        (reserveSeq none p s k nows).1.locks j = s.locks j ∧
        (reserveSeq none p s k nows).1.last_seen j = s.last_seen j
  | [], _ => ⟨rfl, rfl, rfl⟩
  | now :: rest, s => by
    have h1 := reserve_frame p s k j now hne
    have ih := reserveSeq_frame p k j hne rest (reserve none p s k now).1
    simp only [reserveSeq]
    exact ⟨h1.1 ▸ ih.1, h1.2.1 ▸ ih.2.1, h1.2.2 ▸ ih.2.2⟩

/-- With no cleanup, the delays a sequence of reserves on `k` observes
depend only on the TAT stored at `k`. -/
theorem reserveSeq_delays_congr {K : Type} [DecidableEq K]
    (p : FreqLimitParams) (k : K) :
    ∀ (nows : List ℚ) (s s' : InMemoryState K),
      s.tat k = s'.tat k →
      (reserveSeq none p s k nows).2 = (reserveSeq none p s' k nows).2
  | [], _, _, _ => rfl
  | now :: rest, s, s', h => by
    simp only [reserveSeq, reserve, cleanup_expired, h]
    refine congrArg _ ?_
    refine reserveSeq_delays_congr p k rest _ _ ?_
    simp [cleanup_expired, h]

/-- C5 (amended): with `idle_ttl` unset there is no cleanup pass, and
a sequence of reserves on `k1` leaves the `tat`/`locks`/`last_seen`
entries of a distinct key `k2` untouched and does not change the
delays a subsequent sequence of reserves on `k2` observes.  (With
`idle_ttl` set, a reserve on `k1` can evict an idle `k2`; see the
counterexample.) -/
theorem reserve_no_interference {K : Type} [DecidableEq K]
    (p1 p2 : FreqLimitParams) (k1 k2 : K) (hne : k2 ≠ k1)
    (s : InMemoryState K) (nows1 nows2 : List ℚ) :
    ((reserveSeq none p1 s k1 nows1).1.tat k2 = s.tat k2 ∧
        (reserveSeq none p1 s k1 nows1).1.locks k2 = s.locks k2 ∧
        (reserveSeq none p1 s k1 nows1).1.last_seen k2 = s.last_seen k2) ∧
      (reserveSeq none p2 (reserveSeq none p1 s k1 nows1).1 k2 nows2).2 =
        (reserveSeq none p2 s k2 nows2).2 := by
  have hframe := reserveSeq_frame p1 k1 k2 hne nows1 s
  exact ⟨hframe, reserveSeq_delays_congr p2 k2 nows2 _ s hframe.1⟩

/-- Concrete instantiation of `reserve_no_interference`. -/
theorem reserve_no_interference_witness :
    ((1 : ℕ) ≠ 0) ∧
      (((reserveSeq none (FreqLimitParams.mk 1 1 1) (InMemoryState.empty ℕ)
            0 [0]).1.tat 1 = (InMemoryState.empty ℕ).tat 1 ∧
          (reserveSeq none (FreqLimitParams.mk 1 1 1) (InMemoryState.empty ℕ)
            0 [0]).1.locks 1 = (InMemoryState.empty ℕ).locks 1 ∧
          (reserveSeq none (FreqLimitParams.mk 1 1 1) (InMemoryState.empty ℕ)
            0 [0]).1.last_seen 1 = (InMemoryState.empty ℕ).last_seen 1) ∧
        (reserveSeq none (FreqLimitParams.mk 1 1 1)
            (reserveSeq none (FreqLimitParams.mk 1 1 1)
              (InMemoryState.empty ℕ) 0 [0]).1 1 [0]).2 =
          (reserveSeq none (FreqLimitParams.mk 1 1 1)
            (InMemoryState.empty ℕ) 1 [0]).2) :=
  ⟨by decide,
    reserve_no_interference (FreqLimitParams.mk 1 1 1)
      (FreqLimitParams.mk 1 1 1) 0 1 (by decide)
      (InMemoryState.empty ℕ) [0] [0]⟩

/-- C5 counterexample: with `idle_ttl = 1`, after key `2` reserves at
`now = 0`, a single reserve on the distinct key `1` at `now = 2` runs
the cleanup pass and evicts key `2`: key 2's `tat` entry changes from
`some 1` to `none`, so reserves on one key do alter another key's
state when `idle_ttl` is set. -/
theorem reserve_interference_counterexample :
    (reserve (some 1) (FreqLimitParams.mk 1 1 1)
        (reserve (some 1) (FreqLimitParams.mk 1 1 1)
          (InMemoryState.empty ℕ) 2 0).1 1 2).1.tat 2 ≠
      (reserve (some 1) (FreqLimitParams.mk 1 1 1)
        (InMemoryState.empty ℕ) 2 0).1.tat 2 := by
  simp only [reserve, cleanup_expired, InMemoryState.empty, gcra_step,
    FreqLimitParams.interval, FreqLimitParams.tau]
  norm_num
  exact fun h => Option.noConfusion h

/-- C10: with valid params, `gcra_step` returns
`new_tat ≥ tat + interval` for a present prior TAT (and
`new_tat ≥ now + interval` for an absent one), hence `new_tat > tat`;
consequently a reserve (here with no cleanup pass) on a key holding a
stored TAT replaces it by a strictly larger one. -/
theorem gcra_step_advances_tat {K : Type} [DecidableEq K]
    (p : FreqLimitParams) (h : p.Valid) :
    (∀ now t : ℚ, t + p.interval ≤ (gcra_step now (some t) p).1 ∧
        t < (gcra_step now (some t) p).1) ∧
      (∀ now : ℚ, now + p.interval ≤ (gcra_step now none p).1) ∧
      (∀ (s : InMemoryState K) (k : K) (now t : ℚ), s.tat k = some t →
        ∃ t', (reserve none p s k now).1.tat k = some t' ∧ t < t') := by
  have htau := FreqLimitParams.tau_nonneg h
  have hint := FreqLimitParams.interval_pos h
  have key : ∀ now t : ℚ, t + p.interval ≤ (gcra_step now (some t) p).1 ∧
      t < (gcra_step now (some t) p).1 := by
    intro now t
    rw [gcra_step_fst now (some t) p htau]
    simp only [Option.getD_some]
    have := le_max_right now t
    exact ⟨by linarith, by linarith⟩
  refine ⟨key, ?_, ?_⟩
  · intro now
    rw [gcra_step_fst now none p htau]
    simp
  · intro s k now t hk
    refine ⟨(gcra_step now (some t) p).1, ?_, (key now t).2⟩
    simp [reserve, cleanup_expired, hk]

/-- Concrete instantiation of `gcra_step_advances_tat`. -/
theorem gcra_step_advances_tat_witness :
    (FreqLimitParams.mk 1 1 1).Valid ∧
      ((∀ now t : ℚ,
          t + (FreqLimitParams.mk 1 1 1).interval ≤
            (gcra_step now (some t) (FreqLimitParams.mk 1 1 1)).1 ∧
          t < (gcra_step now (some t) (FreqLimitParams.mk 1 1 1)).1) ∧
        (∀ now : ℚ, now + (FreqLimitParams.mk 1 1 1).interval ≤
          (gcra_step now none (FreqLimitParams.mk 1 1 1)).1) ∧
        (∀ (s : InMemoryState ℕ) (k : ℕ) (now t : ℚ), s.tat k = some t →
          ∃ t', (reserve none (FreqLimitParams.mk 1 1 1) s k now).1.tat k =
              some t' ∧ t < t')) :=
  ⟨by decide, gcra_step_advances_tat (FreqLimitParams.mk 1 1 1) (by decide)⟩

/-- The `FreqLimitParams` constructor together with `__post_init__`
from `params.py`: each non-positive input raises `ValueError` with the
message from the source; otherwise the dataclass holds the given
values. -/
def mkFreqLimitParams (limit : ℤ) (period : ℚ) (burst : ℤ) :
    Except String FreqLimitParams :=
  if limit ≤ 0 then .error "limit must be greater than 0"
  else if period ≤ 0 then .error "period must be greater than 0"
  else if burst ≤ 0 then .error "burst must be greater than 0"
  else .ok ⟨limit, period, burst⟩

/-- Configuration kept by `InMemoryBackend.__init__`. -/
structure InMemoryConfig where
  idle_ttl : Option ℚ
  sweeper_interval : Option ℚ
  deriving Repr, DecidableEq

/-- `InMemoryBackend.__init__`: `idle_ttl` and `sweeper_interval` must
each be `None` or positive; otherwise `ValueError`. -/
def mkInMemoryBackend (idle_ttl sweeper_interval : Option ℚ) :
    Except String InMemoryConfig :=
  match idle_ttl with
  | some t =>
    if t ≤ 0 then .error "idle_ttl must be positive or None"
    else
      match sweeper_interval with
      | some u =>
        if u ≤ 0 then .error "sweeper_interval must be positive or None"
        else .ok ⟨idle_ttl, sweeper_interval⟩
      | none => .ok ⟨idle_ttl, sweeper_interval⟩
  | none =>
    match sweeper_interval with
    | some u =>
      if u ≤ 0 then .error "sweeper_interval must be positive or None"
      else .ok ⟨idle_ttl, sweeper_interval⟩
    | none => .ok ⟨idle_ttl, sweeper_interval⟩

/-- C8: `FreqLimitParams(limit, period, burst)` raises exactly when
`limit ≤ 0` or `period ≤ 0` or `burst ≤ 0`, and on success holds the
given values; `InMemoryBackend(idle_ttl, sweeper_interval)` raises
exactly when a set `idle_ttl` is `≤ 0` or a set `sweeper_interval` is
`≤ 0`, and on success holds the given values. -/
theorem construction_validation :
    (∀ (l : ℤ) (per : ℚ) (b : ℤ),
        (∃ e, mkFreqLimitParams l per b = .error e) ↔
          (l ≤ 0 ∨ per ≤ 0 ∨ b ≤ 0)) ∧
      (∀ (l : ℤ) (per : ℚ) (b : ℤ), 0 < l → 0 < per → 0 < b →
        mkFreqLimitParams l per b = .ok ⟨l, per, b⟩) ∧
      (∀ it si : Option ℚ,
        (∃ e, mkInMemoryBackend it si = .error e) ↔
          ((∃ t, it = some t ∧ t ≤ 0) ∨ (∃ u, si = some u ∧ u ≤ 0))) ∧
      (∀ it si : Option ℚ, (∀ t ∈ it, 0 < t) → (∀ u ∈ si, 0 < u) →
        mkInMemoryBackend it si = .ok ⟨it, si⟩) := by
  refine ⟨?_, ?_, ?_, ?_⟩
  · intro l per b
    unfold mkFreqLimitParams
    split_ifs with h1 h2 h3 <;> simp_all
  · intro l per b h1 h2 h3
    unfold mkFreqLimitParams
    rw [if_neg (by linarith), if_neg (by linarith), if_neg (by linarith)]
  · intro it si
    rcases it with - | t <;> rcases si with - | u <;>
      simp only [mkInMemoryBackend] <;>
      [skip; split_ifs with h1; split_ifs with h1; split_ifs with h1 h2] <;>
      simp_all
  · intro it si h1 h2
    rcases it with - | t <;> rcases si with - | u <;>
      simp only [mkInMemoryBackend]
    · rw [if_neg (by simpa using not_le.2 (h2 u rfl))]
    · rw [if_neg (by simpa using not_le.2 (h1 t rfl))]
    · rw [if_neg (by simpa using not_le.2 (h1 t rfl)),
        if_neg (by simpa using not_le.2 (h2 u rfl))]

/-- Concrete instantiation of `construction_validation`. -/
theorem construction_validation_witness :
    ((0 : ℤ) < 2 ∧ (0 : ℚ) < 1 ∧ (0 : ℤ) < 1) ∧
      mkFreqLimitParams 2 1 1 = .ok ⟨2, 1, 1⟩ :=
  ⟨⟨by decide, by decide, by decide⟩,
    construction_validation.2.1 2 1 1 (by decide) (by decide) (by decide)⟩

/-- The key substitution at the top of `FreqLimit.resource` in
`limiter.py`: a missing (`None`) key becomes the sentinel `"_global"`
before `backend.reserve` is called. -/
def resolveKey (key : Option String) : String :=
  match key with
  | none => "_global"
  | some k => k

/-- C9: `resource()` (whose default key is `None`) and
`resource(None)` both address the slot `"_global"`, and a present key
is passed through unchanged. -/
theorem resolveKey_global :
    resolveKey none = "_global" ∧ ∀ k : String, resolveKey (some k) = k :=
  ⟨rfl, fun _ => rfl⟩

/-- The Lua script `GCRA_LUA` from `redis.py`: one GCRA step on the
server clock followed by the TTL computation.  Returns
`(delay, new_tat, ttl_seconds)` where `ttl_seconds` is the integer
handed to `SET ... EX` — `math.ceil` of `(new_tat - now) + extra_ttl`
clamped below at `1.0`. -/
def redis_gcra_lua (now : ℚ) (tat? : Option ℚ)
    (interval tau extra_ttl : ℚ) : ℚ × ℚ × ℤ :=
  let tat := match tat? with | none => now | some t => t
  let allowed_time := tat - tau
  let delay := if now < allowed_time then allowed_time - now else 0
  let effective_now := if now < allowed_time then allowed_time else now
  let new_tat :=
    if effective_now ≥ tat then effective_now + interval
    else tat + interval
  let ttl := (new_tat - now) + extra_ttl
  let ttl := if ttl < 1 then 1 else ttl
  (delay, new_tat, ⌈ttl⌉)

/-- Closed form of the TAT the script writes back, for `tau ≥ 0`. -/
theorem redis_gcra_new_tat (now : ℚ) (tat? : Option ℚ)
    (interval tau extra_ttl : ℚ) (h : 0 ≤ tau) :
    (redis_gcra_lua now tat? interval tau extra_ttl).2.1 =
      max now (tat?.getD now) + interval := by
  have key : ∀ t : ℚ,
      (redis_gcra_lua now (some t) interval tau extra_ttl).2.1 =
        max now t + interval := by
    intro t
    simp only [redis_gcra_lua, ge_iff_le]
    split_ifs with h0 h1 h2
    · have htau : tau = 0 := le_antisymm (by linarith) h
      rw [max_eq_right (by linarith : now ≤ t)]
      linarith
    · rw [max_eq_right (by linarith : now ≤ t)]
    · rw [max_eq_left h2]
    · rw [max_eq_right (by linarith : now ≤ t)]
  cases tat? with
  | none => simpa using key now
  | some t => simpa using key t

/-- C6: the TTL the script stores with the new TAT is exactly
`⌈max 1 ((new_tat - now) + extra_ttl)⌉` seconds, and — for any
`tau ≥ 0`, as produced by valid params — it coincides with the TTL at
`tau = 0`: the burst tolerance does not inflate the TTL. -/
theorem redis_ttl_spec (now : ℚ) (tat? : Option ℚ)
    (interval tau extra_ttl : ℚ) (h : 0 ≤ tau) :
    ((redis_gcra_lua now tat? interval tau extra_ttl).2.2 =
        ⌈max 1 (((redis_gcra_lua now tat? interval tau extra_ttl).2.1 - now)
          + extra_ttl)⌉) ∧
      (redis_gcra_lua now tat? interval tau extra_ttl).2.2 =
        (redis_gcra_lua now tat? interval 0 extra_ttl).2.2 := by
  have hclamp : ∀ x : ℚ, (⌈if x < 1 then (1 : ℚ) else x⌉ : ℤ) = ⌈max 1 x⌉ := by
    intro x
    split_ifs with hx
    · rw [max_eq_left (le_of_lt hx)]
    · rw [max_eq_right (not_lt.1 hx)]
  have hrfl : ∀ tau' : ℚ,
      (redis_gcra_lua now tat? interval tau' extra_ttl).2.2 =
        ⌈if ((redis_gcra_lua now tat? interval tau' extra_ttl).2.1 - now)
              + extra_ttl < 1 then (1 : ℚ)
          else ((redis_gcra_lua now tat? interval tau' extra_ttl).2.1 - now)
              + extra_ttl⌉ := by
    intro tau'
    cases tat? <;> rfl
  constructor
  · rw [hrfl tau, hclamp]
  · rw [hrfl tau, hrfl 0, redis_gcra_new_tat now tat? interval tau extra_ttl h,
      redis_gcra_new_tat now tat? interval 0 extra_ttl le_rfl]

/-- Concrete instantiation of `redis_ttl_spec`. -/
theorem redis_ttl_spec_witness :
    (0 : ℚ) ≤ 1 / 2 ∧
      (((redis_gcra_lua 0 (some 2) 1 (1/2) 0).2.2 =
          ⌈max 1 (((redis_gcra_lua 0 (some 2) 1 (1/2) 0).2.1 - 0) + 0)⌉) ∧
        (redis_gcra_lua 0 (some 2) 1 (1/2) 0).2.2 =
          (redis_gcra_lua 0 (some 2) 1 0 0).2.2) :=
  ⟨by norm_num, redis_ttl_spec 0 (some 2) 1 (1/2) 0 (by norm_num)⟩

end Aiofreqlimit
